import Mathlib

/-!
Shallow embedding of `src/db/MySQL_db_connection.py`: a keyed MySQL
connection pool.  Connections are abstracted to identifiers (`Nat`); the
behaviour of the fallible client primitives (`rollback`, `ping`, `close`,
the factory `pymysql.connect`) is supplied by explicit behaviour records,
and Python exception flow is modelled with `Except`.  A `queue.Queue` of
idle connections is a `List Nat` (head = next to dequeue, `put` appends),
together with its `maxsize`.
-/

/-- Python exceptions relevant to the module: a generic `Exception`, the
`queue.Full` and `queue.Empty` signals, and an arbitrary exception raised
by caller code inside a lease (tagged with a code). -/
inductive PyExc where
  | Error : PyExc
  | Full : PyExc
  | Empty : PyExc
  | Caller : Nat → PyExc
deriving DecidableEq, Repr

/-- Default of `_POOL_SIZE = int(os.getenv("MYSQL_POOL_SIZE", "5"))`. -/
def _POOL_SIZE_default : Nat := 5

/-- Default of `_POOL_GET_TIMEOUT = float(os.getenv("MYSQL_POOL_TIMEOUT", "10"))`. -/
def _POOL_GET_TIMEOUT_default : Nat := 10

/-- Default of `_POOL_PING = os.getenv("MYSQL_POOL_PING", "true") ... == "true"`. -/
def _POOL_PING_default : Bool := true

/-- Pool partition key: `_make_key(host, user, db)` returns `(host, user, db)`.
The password is not an argument. -/
abbrev TargetKey := String × String × String

/-- `_make_key` from the source. -/
def _make_key (host user db : String) : TargetKey := (host, user, db)

/-- Association-list lookup (embedding of `key in _pools` / `_pools[key]`). -/
def lookupKey {α β : Type} [DecidableEq α] : List (α × β) → α → Option β
  | [], _ => none
  | (k, v) :: rest, key => if k = key then some v else lookupKey rest key

/-- The module-level `_pools` dict together with the capacities of the
queues it has created.  Queues are named by identifiers; `caps` records the
`maxsize` each queue was created with; `nextQ` supplies fresh queue ids. -/
structure Registry where
  pools : List (TargetKey × Nat)
  caps : List (Nat × Nat)
  nextQ : Nat
deriving DecidableEq, Repr

/-- Initial module state: `_pools = {}`. -/
def Registry.start : Registry := ⟨[], [], 0⟩

/-- `_get_pool(host, user, db)`: under `_pools_lock`, create
`Queue(maxsize=_POOL_SIZE)` for the key if absent, then return the
key's queue.  The lock itself is not modelled (sequential embedding);
`poolSize` is the module's `_POOL_SIZE`. -/
def _get_pool (poolSize : Nat) (host user db : String) (r : Registry) :
    Nat × Registry :=
  let key := _make_key host user db
  match lookupKey r.pools key with
  | some q => (q, r)
  | none =>
      (r.nextQ,
       { pools := (key, r.nextQ) :: r.pools
         caps := (r.nextQ, poolSize) :: r.caps
         nextQ := r.nextQ + 1 })

/-- The `MySQLConn` guard object after `__init__`: environment credentials,
the requested database, the resolved pool, and `self.conn = None`. -/
structure MySQLConnG where
  host : String
  user : String
  password : String
  db : String
  poolId : Nat
  conn : Option Nat
deriving DecidableEq, Repr

/-- `MySQLConn.__init__(db)`: resolve the pool via
`_get_pool(host, user, db)` (the password plays no part) and set
`self.conn = None`. -/
def MySQLConn_init (poolSize : Nat) (host user password db : String)
    (r : Registry) : MySQLConnG × Registry :=
  let qr := _get_pool poolSize host user db r
  ({ host := host, user := user, password := password, db := db,
     poolId := qr.1, conn := none }, qr.2)

/-- `pool.get(timeout=_POOL_GET_TIMEOUT)`: in the sequential embedding a
non-empty queue yields its head at once and an empty queue waits out the
timeout and raises `queue.Empty`. -/
def pool_get : List Nat → Except PyExc (Nat × List Nat)
  | [] => .error .Empty
  | c :: rest => .ok (c, rest)

/-- `pool.put_nowait(conn)`: `queue.Queue` raises `Full` when
`0 < maxsize ≤ qsize()` (a non-positive `maxsize` means unbounded);
`putRaises` lets the operation fail for any other reason. -/
def pool_put_nowait (maxsize : Nat) (q : List Nat) (c : Nat)
    (putRaises : Bool) : Except PyExc (List Nat) :=
  if 0 < maxsize ∧ maxsize ≤ q.length then .error .Full
  else if putRaises then .error .Error
  else .ok (q ++ [c])

/-- `conn.ping(reconnect=...)`: succeeds or raises, as the behaviour flag
`ok` dictates; the `reconnect` argument records which variant the call
site uses (`True` on acquire, `False` on release). -/
def conn_ping (reconnect : Bool) (ok : Bool) : Except PyExc Unit :=
  if ok then .ok () else .error .Error

/-- `conn.rollback()`: on success the open transaction (if any) is ended,
so the transaction-active flag becomes `false`; otherwise it raises. -/
def conn_rollback (raises : Bool) (txn : Bool) : Except PyExc Bool :=
  if raises then .error .Error else .ok false

/-- `conn.close()`: may itself raise. -/
def conn_close (raises : Bool) : Except PyExc Unit :=
  if raises then .error .Error else .ok ()

/-- `_create_connection(host, user, pwd, db)`: `pymysql.connect(...)` with
`autocommit=False`; the model names the fresh connection `nextId` and
abstracts the session parameters.  Raises when the handshake fails. -/
def _create_connection (factoryOk : Bool) (nextId : Nat) : Except PyExc Nat :=
  if factoryOk then .ok nextId else .error .Error

/-- Behaviour of the fallible primitives during one `__enter__`:
whether `ping(reconnect=True)` on the dequeued connection succeeds,
whether `close()` on a failed probe raises, and whether the factory
connect succeeds. -/
structure EnterBehavior where
  pingOk : Bool
  closeRaises : Bool
  factoryOk : Bool
deriving DecidableEq, Repr

/-- Behaviour of the fallible primitives during one `__exit__`. -/
structure ExitBehavior where
  rollbackRaises : Bool
  pingOk : Bool
  putRaises : Bool
  closeRaises : Bool
deriving DecidableEq, Repr

/-- Side effects of one `__enter__` (these persist even when the call
raises): the queue after the dequeue attempt, a dequeued connection that
was closed and dropped after a failed probe, whether a probe was made,
whether the factory created the returned connection, and the fresh-id
counter. -/
structure EnterSt where
  queueAfter : List Nat
  discardedConn : Option Nat
  pinged : Bool
  createdNew : Bool
  nextIdAfter : Nat
deriving DecidableEq, Repr

/-- `MySQLConn.__enter__`:

    try:
        conn = self._pool.get(timeout=_POOL_GET_TIMEOUT)
        if _POOL_PING:
            try: conn.ping(reconnect=True)
            except Exception:
                try: conn.close()
                except Exception: pass
                conn = None
    except Empty:
        conn = None
    if conn is None:
        conn = _create_connection(...)
    self.conn = conn; return self.conn

The first component is the call's result (`.ok` with the leased
connection, or the uncaught factory exception); the second records the
side effects. -/
def MySQLConn_enter (pingEnabled : Bool) (q : List Nat) (nextId : Nat)
    (b : EnterBehavior) : Except PyExc Nat × EnterSt :=
  let step1 : Option Nat × List Nat × Bool × Option Nat :=
    match pool_get q with
    | .error _ => (none, q, false, none)
    | .ok (c, rest) =>
      if pingEnabled then
        match conn_ping true b.pingOk with
        | .ok _ => (some c, rest, true, none)
        | .error _ =>
          match conn_close b.closeRaises with
          | _ => (none, rest, true, some c)
      else (some c, rest, false, none)
  match step1 with
  | (some c, q2, pinged, disc) =>
    (.ok c, { queueAfter := q2, discardedConn := disc, pinged := pinged,
              createdNew := false, nextIdAfter := nextId })
  | (none, q2, pinged, disc) =>
    match _create_connection b.factoryOk nextId with
    | .ok c =>
      (.ok c, { queueAfter := q2, discardedConn := disc, pinged := pinged,
                createdNew := true, nextIdAfter := nextId + 1 })
    | .error e =>
      (.error e, { queueAfter := q2, discardedConn := disc, pinged := pinged,
                   createdNew := false, nextIdAfter := nextId })

/-- Side effects of one `__exit__`: whether a rollback was attempted,
whether the release-time probe was attempted, whether the connection was
re-enqueued or closed, the queue afterwards, `self.conn` afterwards, and
whether the connection still has an open transaction. -/
structure ExitEff where
  rollbackTried : Bool
  pinged : Bool
  enqueued : Bool
  closedConn : Bool
  queueAfter : List Nat
  connAfter : Option Nat
  txnAfter : Bool
deriving DecidableEq, Repr

/-- `MySQLConn.__exit__(exc_type, exc_val, exc_tb)`:

    if self.conn:
        try:
            if exc_type is not None:
                try: self.conn.rollback()
                except Exception: pass
            try:
                if _POOL_PING:
                    self.conn.ping(reconnect=False)
                try: self._pool.put_nowait(self.conn)
                except Exception:
                    try: self.conn.close()
                    except Exception: pass
            except Exception:
                try: self.conn.close()
                except Exception: pass
        finally:
            self.conn = None

(The source's outer `try` has no `except`; its only handler structure is
the one shown, and the method body ends without a `return`, so the call
returns `None` — modelled as `.ok false`, `false` being the truthiness of
`None` for the `with`-statement's suppression test.)  `txn` is whether the
leased connection has an open transaction on entry, `excPresent` is
`exc_type is not None`. -/
def MySQLConn_exit (pingEnabled : Bool) (maxsize : Nat) (q : List Nat)
    (conn : Option Nat) (txn : Bool) (excPresent : Bool) (b : ExitBehavior) :
    Except PyExc Bool × ExitEff :=
  match conn with
  | none =>
    (.ok false, { rollbackTried := false, pinged := false, enqueued := false,
                  closedConn := false, queueAfter := q, connAfter := none,
                  txnAfter := txn })
  | some c =>
    let rb : Bool × Bool :=
      if excPresent then
        match conn_rollback b.rollbackRaises txn with
        | .ok t => (t, true)
        | .error _ => (txn, true)
      else (txn, false)
    let inner : Except PyExc (Bool × List Nat) :=
      match (if pingEnabled then conn_ping false b.pingOk else .ok ()) with
      | .error e => .error e
      | .ok _ =>
        match pool_put_nowait maxsize q c b.putRaises with
        | .ok q2 => .ok (true, q2)
        | .error _ =>
          match conn_close b.closeRaises with
          | _ => .ok (false, q)
    match inner with
    | .ok (enq, q2) =>
      (.ok false, { rollbackTried := rb.2, pinged := pingEnabled,
                    enqueued := enq, closedConn := !enq, queueAfter := q2,
                    connAfter := none, txnAfter := rb.1 })
    | .error _ =>
      match conn_close b.closeRaises with
      | _ =>
        (.ok false, { rollbackTried := rb.2, pinged := pingEnabled,
                      enqueued := false, closedConn := true, queueAfter := q,
                      connAfter := none, txnAfter := rb.1 })

/-- One `with MySQLConn(db) as conn: body` execution, threading the queue:
`__enter__`, then the caller's block, then `__exit__` with `exc_type`
reflecting the block's outcome.  Per Python semantics an exception from
the block is suppressed only if `__exit__` returns a truthy value, and an
exception raised by `__exit__` itself replaces the block's.  `txnAtEnd`
is the leased connection's transaction state when the block ends. -/
def runLease (pingEnabled : Bool) (maxsize : Nat) (q : List Nat)
    (nextId : Nat) (eb : EnterBehavior) (xb : ExitBehavior)
    (txnAtEnd : Bool) (body : Nat → Except PyExc Nat) :
    Except PyExc Nat × List Nat :=
  let ent := MySQLConn_enter pingEnabled q nextId eb
  match ent.1 with
  | .error e => (.error e, ent.2.queueAfter)
  | .ok c =>
    match body c with
    | .ok v =>
      let ex := MySQLConn_exit pingEnabled maxsize ent.2.queueAfter (some c)
        txnAtEnd false xb
      match ex.1 with
      | .ok _ => (.ok v, ex.2.queueAfter)
      | .error e2 => (.error e2, ex.2.queueAfter)
    | .error exc =>
      let ex := MySQLConn_exit pingEnabled maxsize ent.2.queueAfter (some c)
        txnAtEnd true xb
      match ex.1 with
      | .ok sup => (if sup then .ok 0 else .error exc, ex.2.queueAfter)
      | .error e2 => (.error e2, ex.2.queueAfter)

/-- State of one target key's pool over a whole execution: the idle queue,
the connections currently leased to callers, the connections that have
been discarded (closed or dropped, never to be re-enqueued), and the
fresh-id counter for factory-created connections. -/
structure Sys where
  queue : List Nat
  leased : List Nat
  discarded : List Nat
  nextId : Nat
deriving DecidableEq, Repr

/-- A fresh pool: the queue `_get_pool` creates is empty. -/
def Sys.start : Sys := ⟨[], [], [], 0⟩

/-- One pool operation: an acquire (`__enter__`) or the release
(`__exit__`) of a currently leased connection. -/
inductive SysOp where
  | acquire (b : EnterBehavior)
  | release (c : Nat) (txn : Bool) (excPresent : Bool) (b : ExitBehavior)
deriving DecidableEq, Repr

/-- Effect of one operation on the pool state.  A release names a
connection actually held by a lease (`__exit__` runs on the guard that
leased it); releasing anything else leaves the state unchanged, matching
`if self.conn:` skipping the whole body for a guard that holds nothing. -/
def sysStep (pingEnabled : Bool) (maxsize : Nat) (s : Sys) : SysOp → Sys
  | .acquire b =>
    let ent := MySQLConn_enter pingEnabled s.queue s.nextId b
    { queue := ent.2.queueAfter
      leased := (match ent.1 with | .ok c => [c] | .error _ => []) ++ s.leased
      discarded :=
        (match ent.2.discardedConn with | some d => [d] | none => []) ++
          s.discarded
      nextId := ent.2.nextIdAfter }
  | .release c txn excPresent b =>
    if c ∈ s.leased then
      let ex := MySQLConn_exit pingEnabled maxsize s.queue (some c) txn
        excPresent b
      { queue := ex.2.queueAfter
        leased := s.leased.erase c
        discarded := (if ex.2.closedConn then [c] else []) ++ s.discarded
        nextId := s.nextId }
    else s

/-- Run a sequence of operations from the fresh pool. -/
def runSys (pingEnabled : Bool) (maxsize : Nat) (ops : List SysOp) : Sys :=
  ops.foldl (sysStep pingEnabled maxsize) Sys.start

/-- Pool-state invariant: no connection is both idle and leased (or
present twice), idle and leased connections are never discarded ones, and
all connection ids are below the fresh-id counter. -/
def SysInv (s : Sys) : Prop :=
  (s.queue ++ s.leased).Nodup ∧
  (∀ c, c ∈ s.queue ++ s.leased → c ∉ s.discarded) ∧
  (∀ c, c ∈ s.queue ++ s.leased → c < s.nextId) ∧
  (∀ c, c ∈ s.discarded → c < s.nextId)

/-! ### Concrete behaviour records used by witnesses -/

/-- All acquire-time primitives succeed. -/
def ebAllOk : EnterBehavior := ⟨true, false, true⟩

/-- All release-time primitives succeed. -/
def xbAllOk : ExitBehavior := ⟨false, true, false, false⟩

/-! ### Case characterizations of `__enter__` and `__exit__` -/

lemma enter_nil_factoryOk (pingEnabled : Bool) (n : Nat) (b : EnterBehavior)
    (h : b.factoryOk = true) :
    MySQLConn_enter pingEnabled [] n b =
      (.ok n, ⟨[], none, false, true, n + 1⟩) := by
  obtain ⟨po, cr, fo⟩ := b
  simp only at h
  subst h
  rfl

lemma enter_nil_factoryFail (pingEnabled : Bool) (n : Nat) (b : EnterBehavior)
    (h : b.factoryOk = false) :
    MySQLConn_enter pingEnabled [] n b =
      (.error .Error, ⟨[], none, false, false, n⟩) := by
  obtain ⟨po, cr, fo⟩ := b
  simp only at h
  subst h
  rfl

lemma enter_cons_healthy (pingEnabled : Bool) (c : Nat) (rest : List Nat)
    (n : Nat) (b : EnterBehavior)
    (h : pingEnabled = false ∨ b.pingOk = true) :
    MySQLConn_enter pingEnabled (c :: rest) n b =
      (.ok c, ⟨rest, none, pingEnabled, false, n⟩) := by
  obtain ⟨po, cr, fo⟩ := b
  cases pingEnabled with
  | false => rfl
  | true =>
    simp only at h
    rcases h with h | h
    · exact absurd h (by simp)
    · subst h; rfl

lemma enter_cons_dead_factoryOk (c : Nat) (rest : List Nat) (n : Nat)
    (b : EnterBehavior) (h2 : b.pingOk = false) (h3 : b.factoryOk = true) :
    MySQLConn_enter true (c :: rest) n b =
      (.ok n, ⟨rest, some c, true, true, n + 1⟩) := by
  obtain ⟨po, cr, fo⟩ := b
  simp only at h2 h3
  subst h2; subst h3
  cases cr <;> rfl

lemma enter_cons_dead_factoryFail (c : Nat) (rest : List Nat) (n : Nat)
    (b : EnterBehavior) (h2 : b.pingOk = false) (h3 : b.factoryOk = false) :
    MySQLConn_enter true (c :: rest) n b =
      (.error .Error, ⟨rest, some c, true, false, n⟩) := by
  obtain ⟨po, cr, fo⟩ := b
  simp only at h2 h3
  subst h2; subst h3
  cases cr <;> rfl

lemma exit_fst (pingEnabled : Bool) (maxsize : Nat) (q : List Nat)
    (conn : Option Nat) (txn excPresent : Bool) (b : ExitBehavior) :
    (MySQLConn_exit pingEnabled maxsize q conn txn excPresent b).1 =
      .ok false := by
  obtain ⟨rr, po, pr, cr⟩ := b
  cases conn with
  | none => rfl
  | some c =>
    cases pingEnabled <;> cases po <;> cases rr <;> cases cr <;> cases pr <;>
      cases excPresent <;>
      simp [MySQLConn_exit, conn_ping, conn_rollback, conn_close,
        pool_put_nowait] <;>
      split_ifs <;> rfl

lemma exit_none_eq (pingEnabled : Bool) (maxsize : Nat) (q : List Nat)
    (txn excPresent : Bool) (b : ExitBehavior) :
    MySQLConn_exit pingEnabled maxsize q none txn excPresent b =
      (.ok false, ⟨false, false, false, false, q, none, txn⟩) := rfl

lemma exit_shape (pingEnabled : Bool) (maxsize : Nat) (q : List Nat)
    (c : Nat) (txn excPresent : Bool) (b : ExitBehavior) :
    ((MySQLConn_exit pingEnabled maxsize q (some c) txn excPresent b).2.enqueued
        = true ∧
     (MySQLConn_exit pingEnabled maxsize q (some c) txn excPresent b).2.closedConn
        = false ∧
     (MySQLConn_exit pingEnabled maxsize q (some c) txn excPresent b).2.queueAfter
        = q ++ [c]) ∨
    ((MySQLConn_exit pingEnabled maxsize q (some c) txn excPresent b).2.enqueued
        = false ∧
     (MySQLConn_exit pingEnabled maxsize q (some c) txn excPresent b).2.closedConn
        = true ∧
     (MySQLConn_exit pingEnabled maxsize q (some c) txn excPresent b).2.queueAfter
        = q) := by
  obtain ⟨rr, po, pr, cr⟩ := b
  cases pingEnabled <;> cases po <;> cases rr <;> cases cr <;> cases pr <;>
    cases excPresent <;>
    simp [MySQLConn_exit, conn_ping, conn_rollback, conn_close,
      pool_put_nowait] <;>
    split_ifs <;> simp

lemma exit_enqueued_iff (pingEnabled : Bool) (maxsize : Nat) (q : List Nat)
    (c : Nat) (txn excPresent : Bool) (b : ExitBehavior) :
    (MySQLConn_exit pingEnabled maxsize q (some c) txn excPresent b).2.enqueued
        = true ↔
      ((pingEnabled = false ∨ b.pingOk = true) ∧
       ¬(0 < maxsize ∧ maxsize ≤ q.length) ∧ b.putRaises = false) := by
  obtain ⟨rr, po, pr, cr⟩ := b
  cases pingEnabled <;> cases po <;> cases rr <;> cases cr <;> cases pr <;>
    cases excPresent <;>
    simp [MySQLConn_exit, conn_ping, conn_rollback, conn_close,
      pool_put_nowait] <;>
    split_ifs <;> simp_all

lemma exit_queueAfter_of_enqueued (pingEnabled : Bool) (maxsize : Nat)
    (q : List Nat) (c : Nat) (txn excPresent : Bool) (b : ExitBehavior)
    (h : (MySQLConn_exit pingEnabled maxsize q (some c) txn excPresent
      b).2.enqueued = true) :
    (MySQLConn_exit pingEnabled maxsize q (some c) txn excPresent
      b).2.queueAfter = q ++ [c] := by
  rcases exit_shape pingEnabled maxsize q c txn excPresent b with
    ⟨_, _, h3⟩ | ⟨h1, _, _⟩
  · exact h3
  · rw [h] at h1; cases h1

lemma exit_rollbackTried (pingEnabled : Bool) (maxsize : Nat) (q : List Nat)
    (c : Nat) (txn excPresent : Bool) (b : ExitBehavior) :
    (MySQLConn_exit pingEnabled maxsize q (some c) txn excPresent
      b).2.rollbackTried = excPresent := by
  obtain ⟨rr, po, pr, cr⟩ := b
  cases pingEnabled <;> cases po <;> cases rr <;> cases cr <;> cases pr <;>
    cases excPresent <;>
    simp [MySQLConn_exit, conn_ping, conn_rollback, conn_close,
      pool_put_nowait] <;>
    split_ifs <;> rfl

lemma exit_pinged (pingEnabled : Bool) (maxsize : Nat) (q : List Nat)
    (c : Nat) (txn excPresent : Bool) (b : ExitBehavior) :
    (MySQLConn_exit pingEnabled maxsize q (some c) txn excPresent
      b).2.pinged = pingEnabled := by
  obtain ⟨rr, po, pr, cr⟩ := b
  cases pingEnabled <;> cases po <;> cases rr <;> cases cr <;> cases pr <;>
    cases excPresent <;>
    simp [MySQLConn_exit, conn_ping, conn_rollback, conn_close,
      pool_put_nowait] <;>
    split_ifs <;> rfl

lemma exit_connAfter (pingEnabled : Bool) (maxsize : Nat) (q : List Nat)
    (conn : Option Nat) (txn excPresent : Bool) (b : ExitBehavior) :
    (MySQLConn_exit pingEnabled maxsize q conn txn excPresent
      b).2.connAfter = none ∨ conn = none := by
  cases conn with
  | none => exact Or.inr rfl
  | some c =>
    left
    obtain ⟨rr, po, pr, cr⟩ := b
    cases pingEnabled <;> cases po <;> cases rr <;> cases cr <;> cases pr <;>
      cases excPresent <;>
      simp [MySQLConn_exit, conn_ping, conn_rollback, conn_close,
        pool_put_nowait] <;>
      split_ifs <;> rfl

lemma exit_txnAfter_rolled (pingEnabled : Bool) (maxsize : Nat)
    (q : List Nat) (c : Nat) (txn : Bool) (b : ExitBehavior)
    (h : b.rollbackRaises = false) :
    (MySQLConn_exit pingEnabled maxsize q (some c) txn true b).2.txnAfter
      = false := by
  obtain ⟨rr, po, pr, cr⟩ := b
  simp only at h
  subst h
  cases pingEnabled <;> cases po <;> cases cr <;> cases pr <;>
    simp [MySQLConn_exit, conn_ping, conn_rollback, conn_close,
      pool_put_nowait] <;>
    split_ifs <;> rfl

lemma exit_txnAfter_noexc (pingEnabled : Bool) (maxsize : Nat)
    (q : List Nat) (c : Nat) (txn : Bool) (b : ExitBehavior) :
    (MySQLConn_exit pingEnabled maxsize q (some c) txn false b).2.txnAfter
      = txn := by
  obtain ⟨rr, po, pr, cr⟩ := b
  cases pingEnabled <;> cases po <;> cases rr <;> cases cr <;> cases pr <;>
    simp [MySQLConn_exit, conn_ping, conn_rollback, conn_close,
      pool_put_nowait] <;>
    split_ifs <;> rfl

lemma exit_ping_dead (maxsize : Nat) (q : List Nat) (c : Nat)
    (txn excPresent : Bool) (b : ExitBehavior) (h : b.pingOk = false) :
    (MySQLConn_exit true maxsize q (some c) txn excPresent b).2.enqueued
        = false ∧
    (MySQLConn_exit true maxsize q (some c) txn excPresent b).2.closedConn
        = true ∧
    (MySQLConn_exit true maxsize q (some c) txn excPresent b).2.queueAfter
        = q := by
  obtain ⟨rr, po, pr, cr⟩ := b
  simp only at h
  subst h
  cases rr <;> cases cr <;> cases pr <;> cases excPresent <;>
    simp [MySQLConn_exit, conn_ping, conn_rollback, conn_close,
      pool_put_nowait]


lemma SysInv_mk {q l d : List Nat} {n : Nat}
    (h1 : (q ++ l).Nodup) (h2 : ∀ c, c ∈ q ++ l → c ∉ d)
    (h3 : ∀ c, c ∈ q ++ l → c < n) (h4 : ∀ c, c ∈ d → c < n) :
    SysInv ⟨q, l, d, n⟩ :=
  And.intro h1 (And.intro h2 (And.intro h3 h4))

lemma sysStep_acquire_inv (pingEnabled : Bool) (maxsize : Nat) (s : Sys)
    (b : EnterBehavior) (hInv : SysInv s) :
    SysInv (sysStep pingEnabled maxsize s (.acquire b)) := by
  obtain ⟨hnd, hdisc, hbound, hdbound⟩ := hInv
  cases hq : s.queue with
  | nil =>
    rw [hq] at hnd hdisc hbound
    simp only [List.nil_append] at hnd hdisc hbound
    cases hfo : b.factoryOk with
    | false =>
      have hstep : sysStep pingEnabled maxsize s (.acquire b) =
          ⟨[], s.leased, s.discarded, s.nextId⟩ := by
        simp [sysStep, hq, enter_nil_factoryFail pingEnabled s.nextId b hfo]
      rw [hstep]
      exact SysInv_mk (by simpa using hnd) (by simpa using hdisc)
        (by simpa using hbound) hdbound
    | true =>
      have hstep : sysStep pingEnabled maxsize s (.acquire b) =
          ⟨[], s.nextId :: s.leased, s.discarded, s.nextId + 1⟩ := by
        simp [sysStep, hq, enter_nil_factoryOk pingEnabled s.nextId b hfo]
      rw [hstep]
      refine SysInv_mk ?_ ?_ ?_ ?_
      · simp only [List.nil_append, List.nodup_cons]
        exact ⟨fun hm => absurd (hbound _ hm) (by omega), hnd⟩
      · intro x hx
        simp only [List.nil_append, List.mem_cons] at hx
        rcases hx with rfl | hx
        · exact fun hm => absurd (hdbound _ hm) (by omega)
        · exact hdisc x hx
      · intro x hx
        simp only [List.nil_append, List.mem_cons] at hx
        rcases hx with rfl | hx
        · omega
        · exact Nat.lt_succ_of_lt (hbound x hx)
      · exact fun x hx => Nat.lt_succ_of_lt (hdbound x hx)
  | cons c rest =>
    rw [hq] at hnd hdisc hbound
    have hnd2 : (c :: (rest ++ s.leased)).Nodup := hnd
    by_cases hping : pingEnabled = false ∨ b.pingOk = true
    · have hstep : sysStep pingEnabled maxsize s (.acquire b) =
          ⟨rest, c :: s.leased, s.discarded, s.nextId⟩ := by
        simp [sysStep, hq, enter_cons_healthy pingEnabled c rest s.nextId b hping]
      rw [hstep]
      refine SysInv_mk ?_ ?_ ?_ ?_
      · exact List.nodup_middle.mpr hnd2
      · intro x hx
        apply hdisc
        simp only [List.mem_append, List.mem_cons] at hx ⊢
        tauto
      · intro x hx
        apply hbound
        simp only [List.mem_append, List.mem_cons] at hx ⊢
        tauto
      · exact hdbound
    · push_neg at hping
      obtain ⟨hpe, hpo⟩ := hping
      simp only [Bool.not_eq_false] at hpe
      simp only [Bool.not_eq_true] at hpo
      subst hpe
      have hcnotin : c ∉ rest ++ s.leased := (List.nodup_cons.mp hnd2).1
      have hnd3 : (rest ++ s.leased).Nodup := (List.nodup_cons.mp hnd2).2
      have hcb : c < s.nextId := hbound c (by simp)
      cases hfo : b.factoryOk with
      | false =>
        have hstep : sysStep true maxsize s (.acquire b) =
            ⟨rest, s.leased, c :: s.discarded, s.nextId⟩ := by
          simp [sysStep, hq, enter_cons_dead_factoryFail c rest s.nextId b hpo hfo]
        rw [hstep]
        refine SysInv_mk hnd3 ?_ ?_ ?_
        · intro x hx
          simp only [List.mem_cons]
          push_neg
          refine ⟨?_, hdisc x (by simp only [List.cons_append, List.mem_cons]; right; exact hx)⟩
          rintro rfl
          exact hcnotin hx
        · intro x hx
          exact hbound x (by simp only [List.cons_append, List.mem_cons]; right; exact hx)
        · intro x hx
          simp only [List.mem_cons] at hx
          rcases hx with rfl | hx
          · exact hcb
          · exact hdbound x hx
      | true =>
        have hstep : sysStep true maxsize s (.acquire b) =
            ⟨rest, s.nextId :: s.leased, c :: s.discarded, s.nextId + 1⟩ := by
          simp [sysStep, hq, enter_cons_dead_factoryOk c rest s.nextId b hpo hfo]
        rw [hstep]
        refine SysInv_mk ?_ ?_ ?_ ?_
        · refine List.nodup_middle.mpr (List.nodup_cons.mpr ⟨?_, hnd3⟩)
          intro hm
          have hlt := hbound s.nextId (by
            simp only [List.cons_append, List.mem_cons]
            right
            exact hm)
          omega
        · intro x hx
          have hx2 : x = s.nextId ∨ x ∈ rest ++ s.leased := by
            simp only [List.mem_append, List.mem_cons] at hx ⊢
            tauto
          simp only [List.mem_cons]
          push_neg
          rcases hx2 with rfl | hx2
          · exact ⟨by omega, fun hm => absurd (hdbound _ hm) (by omega)⟩
          · refine ⟨?_, hdisc x (by
              simp only [List.cons_append, List.mem_cons]
              right
              exact hx2)⟩
            rintro rfl
            exact hcnotin hx2
        · intro x hx
          have hx2 : x = s.nextId ∨ x ∈ rest ++ s.leased := by
            simp only [List.mem_append, List.mem_cons] at hx ⊢
            tauto
          rcases hx2 with rfl | hx2
          · omega
          · have := hbound x (by
              simp only [List.cons_append, List.mem_cons]
              right
              exact hx2)
            omega
        · intro x hx
          simp only [List.mem_cons] at hx
          rcases hx with rfl | hx
          · omega
          · exact Nat.lt_succ_of_lt (hdbound x hx)

lemma sysStep_release_inv (pingEnabled : Bool) (maxsize : Nat) (s : Sys)
    (c : Nat) (txn excPresent : Bool) (b : ExitBehavior) (hInv : SysInv s) :
    SysInv (sysStep pingEnabled maxsize s (.release c txn excPresent b)) := by
  by_cases hc : c ∈ s.leased
  · obtain ⟨hnd, hdisc, hbound, hdbound⟩ := hInv
    have hndq : s.queue.Nodup := (List.nodup_append.mp hnd).1
    have hndl : s.leased.Nodup := (List.nodup_append.mp hnd).2.1
    have hdisj : s.queue.Disjoint s.leased := (List.nodup_append.mp hnd).2.2
    have hcq : c ∉ s.queue := fun hm => hdisj hm hc
    have hsub : List.Sublist (s.queue ++ s.leased.erase c)
        (s.queue ++ s.leased) :=
      List.Sublist.append_left (List.erase_sublist c s.leased) s.queue
    rcases exit_shape pingEnabled maxsize s.queue c txn excPresent b with
      ⟨henq, hcl, hqa⟩ | ⟨henq, hcl, hqa⟩
    · have hstep : sysStep pingEnabled maxsize s (.release c txn excPresent b) =
          ⟨s.queue ++ [c], s.leased.erase c, s.discarded, s.nextId⟩ := by
        simp [sysStep, hc, hqa, hcl]
      rw [hstep]
      refine SysInv_mk ?_ ?_ ?_ ?_
      · have heq : s.queue ++ [c] ++ s.leased.erase c =
            s.queue ++ c :: s.leased.erase c := by simp
        rw [heq, List.nodup_middle]
        refine List.nodup_cons.mpr ⟨?_, hnd.sublist hsub⟩
        intro hm
        rcases List.mem_append.mp hm with hm | hm
        · exact hcq hm
        · exact ((List.Nodup.mem_erase_iff hndl).mp hm).1 rfl
      · intro x hx
        apply hdisc
        rcases List.mem_append.mp hx with hx | hx
        · rcases List.mem_append.mp hx with hx | hx
          · exact List.mem_append.mpr (Or.inl hx)
          · simp only [List.mem_singleton] at hx
            subst hx
            exact List.mem_append.mpr (Or.inr hc)
        · exact List.mem_append.mpr (Or.inr (List.mem_of_mem_erase hx))
      · intro x hx
        apply hbound
        rcases List.mem_append.mp hx with hx | hx
        · rcases List.mem_append.mp hx with hx | hx
          · exact List.mem_append.mpr (Or.inl hx)
          · simp only [List.mem_singleton] at hx
            subst hx
            exact List.mem_append.mpr (Or.inr hc)
        · exact List.mem_append.mpr (Or.inr (List.mem_of_mem_erase hx))
      · exact hdbound
    · have hstep : sysStep pingEnabled maxsize s (.release c txn excPresent b) =
          ⟨s.queue, s.leased.erase c, c :: s.discarded, s.nextId⟩ := by
        simp [sysStep, hc, hqa, hcl]
      rw [hstep]
      refine SysInv_mk (hnd.sublist hsub) ?_ ?_ ?_
      · intro x hx
        have hxold : x ∈ s.queue ++ s.leased := hsub.subset hx
        simp only [List.mem_cons]
        push_neg
        refine ⟨?_, hdisc x hxold⟩
        rintro rfl
        rcases List.mem_append.mp hx with hx | hx
        · exact hcq hx
        · exact ((List.Nodup.mem_erase_iff hndl).mp hx).1 rfl
      · intro x hx
        exact hbound x (hsub.subset hx)
      · intro x hx
        simp only [List.mem_cons] at hx
        rcases hx with rfl | hx
        · exact hbound x (List.mem_append.mpr (Or.inr hc))
        · exact hdbound x hx
  · have hstep : sysStep pingEnabled maxsize s (.release c txn excPresent b)
        = s := by
      simp [sysStep, hc]
    rw [hstep]
    exact hInv

lemma sysStep_inv (pingEnabled : Bool) (maxsize : Nat) (s : Sys)
    (op : SysOp) (hInv : SysInv s) :
    SysInv (sysStep pingEnabled maxsize s op) := by
  cases op with
  | acquire b => exact sysStep_acquire_inv pingEnabled maxsize s b hInv
  | release c txn excPresent b =>
    exact sysStep_release_inv pingEnabled maxsize s c txn excPresent b hInv

lemma foldl_sysStep_inv (pingEnabled : Bool) (maxsize : Nat)
    (ops : List SysOp) (s : Sys) (hInv : SysInv s) :
    SysInv (ops.foldl (sysStep pingEnabled maxsize) s) := by
  induction ops generalizing s with
  | nil => exact hInv
  | cons op ops ih =>
    exact ih (sysStep pingEnabled maxsize s op)
      (sysStep_inv pingEnabled maxsize s op hInv)

lemma runSys_inv (pingEnabled : Bool) (maxsize : Nat) (ops : List SysOp) :
    SysInv (runSys pingEnabled maxsize ops) := by
  have hstart : SysInv Sys.start := by
    refine SysInv_mk ?_ ?_ ?_ ?_ <;> simp [Sys.start]
  exact foldl_sysStep_inv pingEnabled maxsize ops Sys.start hstart

lemma enter_queueAfter_len (pingEnabled : Bool) (q : List Nat) (n : Nat)
    (b : EnterBehavior) :
    (MySQLConn_enter pingEnabled q n b).2.queueAfter.length ≤ q.length := by
  cases hq : q with
  | nil =>
    cases hfo : b.factoryOk with
    | false => simp [enter_nil_factoryFail pingEnabled n b hfo]
    | true => simp [enter_nil_factoryOk pingEnabled n b hfo]
  | cons c rest =>
    by_cases hping : pingEnabled = false ∨ b.pingOk = true
    · simp [enter_cons_healthy pingEnabled c rest n b hping]
    · push_neg at hping
      obtain ⟨hpe, hpo⟩ := hping
      simp only [Bool.not_eq_false] at hpe
      simp only [Bool.not_eq_true] at hpo
      subst hpe
      cases hfo : b.factoryOk with
      | false => simp [enter_cons_dead_factoryFail c rest n b hpo hfo]
      | true => simp [enter_cons_dead_factoryOk c rest n b hpo hfo]

lemma exit_queueAfter_len (pingEnabled : Bool) (maxsize : Nat) (q : List Nat)
    (c : Nat) (txn excPresent : Bool) (b : ExitBehavior)
    (hpos : 0 < maxsize) (hlen : q.length ≤ maxsize) :
    (MySQLConn_exit pingEnabled maxsize q (some c) txn excPresent
      b).2.queueAfter.length ≤ maxsize := by
  rcases exit_shape pingEnabled maxsize q c txn excPresent b with
    ⟨henq, _, hqa⟩ | ⟨_, _, hqa⟩
  · rw [hqa]
    have hroom := ((exit_enqueued_iff pingEnabled maxsize q c txn excPresent
      b).mp henq).2.1
    simp only [List.length_append, List.length_singleton]
    omega
  · rw [hqa]; exact hlen

lemma sysStep_queue_len (pingEnabled : Bool) (maxsize : Nat) (s : Sys)
    (op : SysOp) (hpos : 0 < maxsize) (hlen : s.queue.length ≤ maxsize) :
    (sysStep pingEnabled maxsize s op).queue.length ≤ maxsize := by
  cases op with
  | acquire b =>
    have h := enter_queueAfter_len pingEnabled s.queue s.nextId b
    simp only [sysStep]
    omega
  | release c txn excPresent b =>
    by_cases hc : c ∈ s.leased
    · simp only [sysStep, if_pos hc]
      exact exit_queueAfter_len pingEnabled maxsize s.queue c txn excPresent b
        hpos hlen
    · simp only [sysStep, if_neg hc]
      exact hlen

lemma foldl_sysStep_queue_len (pingEnabled : Bool) (maxsize : Nat)
    (ops : List SysOp) (s : Sys) (hpos : 0 < maxsize)
    (hlen : s.queue.length ≤ maxsize) :
    (ops.foldl (sysStep pingEnabled maxsize) s).queue.length ≤ maxsize := by
  induction ops generalizing s with
  | nil => exact hlen
  | cons op ops ih =>
    exact ih (sysStep pingEnabled maxsize s op)
      (sysStep_queue_len pingEnabled maxsize s op hpos hlen)

lemma enter_error_iff (pingEnabled : Bool) (q : List Nat) (n : Nat)
    (b : EnterBehavior) :
    (∃ e, (MySQLConn_enter pingEnabled q n b).1 = .error e) ↔
      ((q = [] ∨ (pingEnabled = true ∧ b.pingOk = false)) ∧
        b.factoryOk = false) := by
  cases hq : q with
  | nil =>
    cases hfo : b.factoryOk with
    | false => simp [enter_nil_factoryFail pingEnabled n b hfo]
    | true => simp [enter_nil_factoryOk pingEnabled n b hfo, hfo]
  | cons c rest =>
    by_cases hping : pingEnabled = false ∨ b.pingOk = true
    · simp only [enter_cons_healthy pingEnabled c rest n b hping]
      constructor
      · rintro ⟨e, he⟩; cases he
      · rintro ⟨h1 | ⟨h2, h3⟩, _⟩
        · cases h1
        · rcases hping with h | h
          · rw [h] at h2; cases h2
          · rw [h] at h3; cases h3
    · push_neg at hping
      obtain ⟨hpe, hpo⟩ := hping
      simp only [Bool.not_eq_false] at hpe
      simp only [Bool.not_eq_true] at hpo
      subst hpe
      cases hfo : b.factoryOk with
      | false => simp [enter_cons_dead_factoryFail c rest n b hpo hfo, hpo, hfo]
      | true => simp [enter_cons_dead_factoryOk c rest n b hpo hfo, hfo]


/-! ### Claims -/

/-- C1 (counterexample): a caller's block that completes normally without
committing (`excPresent = false`, transaction still open) gets no
rollback, and `__exit__` re-enqueues the connection with its transaction
still active — so a connection handed to the next lease CAN carry a stale
open transaction. -/
theorem reenqueued_with_open_txn_cx :
    (MySQLConn_exit true 5 [] (some 0) true false xbAllOk).2.enqueued = true ∧
    (MySQLConn_exit true 5 [] (some 0) true false xbAllOk).2.txnAfter = true ∧
    (MySQLConn_exit true 5 [] (some 0) true false xbAllOk).2.queueAfter =
      [0] := by
  decide

/-- C1 (amended): only when the caller's block failed is a rollback
performed; if that rollback succeeds, any connection the release path
re-enqueues has transaction state none.  (A block that completes normally
without committing may re-enqueue an open transaction, as the
counterexample shows.) -/
theorem rollback_on_failure_clears_txn (pingEnabled : Bool) (maxsize : Nat)
    (q : List Nat) (c : Nat) (txn : Bool) (b : ExitBehavior)
    (hrb : b.rollbackRaises = false)
    (henq : (MySQLConn_exit pingEnabled maxsize q (some c) txn true
      b).2.enqueued = true) :
    (MySQLConn_exit pingEnabled maxsize q (some c) txn true b).2.txnAfter
      = false :=
  exit_txnAfter_rolled pingEnabled maxsize q c txn b hrb

/-- C1 (witness for the amended theorem). -/
theorem rollback_on_failure_clears_txn_witness :
    (MySQLConn_exit true 5 [] (some 0) true true xbAllOk).2.txnAfter
      = false :=
  rollback_on_failure_clears_txn true 5 [] 0 true xbAllOk (by decide)
    (by decide)

/-- C2: `__exit__` never raises and returns a falsy value on every path,
whatever the cleanup primitives do; hence when the leased scope raises
`E`, the `with` statement re-raises exactly `E`, and when the scope
completes normally the lease returns the scope's value. -/
theorem exit_never_raises_caller_sees_own_exc (pingEnabled : Bool)
    (maxsize : Nat) (q : List Nat) (n : Nat) (eb : EnterBehavior)
    (xb : ExitBehavior) (txn : Bool) (body : Nat → Except PyExc Nat)
    (c : Nat) (E : PyExc) (v : Nat)
    (hok : (MySQLConn_enter pingEnabled q n eb).1 = .ok c) :
    (body c = .error E →
      (runLease pingEnabled maxsize q n eb xb txn body).1 = .error E) ∧
    (body c = .ok v →
      (runLease pingEnabled maxsize q n eb xb txn body).1 = .ok v) ∧
    (∀ conn txn2 exc2 q2,
      (MySQLConn_exit pingEnabled maxsize q2 conn txn2 exc2 xb).1 =
        .ok false) := by
  refine ⟨?_, ?_, fun conn txn2 exc2 q2 =>
    exit_fst pingEnabled maxsize q2 conn txn2 exc2 xb⟩
  · intro hbody
    simp only [runLease, hok, hbody,
      exit_fst pingEnabled maxsize
        (MySQLConn_enter pingEnabled q n eb).2.queueAfter (some c) txn true xb]
    simp
  · intro hbody
    simp only [runLease, hok, hbody,
      exit_fst pingEnabled maxsize
        (MySQLConn_enter pingEnabled q n eb).2.queueAfter (some c) txn false
        xb]

/-- C2 (witness): with every cleanup primitive set to fail, a caller
exception with code 7 is seen by the caller exactly, and a normal block
yields its value. -/
theorem exit_never_raises_caller_sees_own_exc_witness :
    (runLease true 5 [] 0 ebAllOk ⟨true, false, true, true⟩ true
      (fun _ => .error (.Caller 7))).1 = .error (.Caller 7) ∧
    (runLease true 5 [] 0 ebAllOk ⟨true, false, true, true⟩ true
      (fun _ => .ok 41)).1 = .ok 41 := by
  constructor
  · exact (exit_never_raises_caller_sees_own_exc true 5 [] 0 ebAllOk
      ⟨true, false, true, true⟩ true (fun _ => .error (.Caller 7)) 0
      (.Caller 7) 41 rfl).1 rfl
  · exact (exit_never_raises_caller_sees_own_exc true 5 [] 0 ebAllOk
      ⟨true, false, true, true⟩ true (fun _ => .ok 41) 0
      (.Caller 7) 41 rfl).2.1 rfl

/-- C3: `__enter__` raises if and only if no usable idle connection was
obtained (queue empty at dequeue, or the acquire-time probe failed) AND
the factory's connection creation fails; in every other case it returns a
connection, so neither a dequeue timeout nor a failed probe alone is
surfaced. -/
theorem acquire_raises_iff_no_usable_idle_and_factory_fails
    (pingEnabled : Bool) (q : List Nat) (n : Nat) (b : EnterBehavior) :
    ((∃ e, (MySQLConn_enter pingEnabled q n b).1 = .error e) ↔
      ((q = [] ∨ (pingEnabled = true ∧ b.pingOk = false)) ∧
        b.factoryOk = false)) ∧
    (¬((q = [] ∨ (pingEnabled = true ∧ b.pingOk = false)) ∧
        b.factoryOk = false) →
      ∃ c, (MySQLConn_enter pingEnabled q n b).1 = .ok c) := by
  refine ⟨enter_error_iff pingEnabled q n b, ?_⟩
  intro hno
  rcases hres : (MySQLConn_enter pingEnabled q n b).1 with e | c
  · exact absurd ((enter_error_iff pingEnabled q n b).mp ⟨e, hres⟩) hno
  · exact ⟨c, rfl⟩

/-- C3 (witness): with an empty queue and a reachable factory, acquire
does not raise. -/
theorem acquire_raises_iff_witness :
    ∃ c, (MySQLConn_enter true [] 0 ebAllOk).1 = .ok c :=
  (acquire_raises_iff_no_usable_idle_and_factory_fails true [] 0 ebAllOk).2
    (by decide)

/-- C4: the release protocol of `__exit__` on a held connection: rollback
is attempted iff the caller's block failed (errors swallowed — the call
still returns normally); if the release-time probe raises, the connection
is closed and not enqueued; if the probe passes and the queue is full (or
the enqueue itself raises), the connection is closed; otherwise it is
appended to the queue; and in all paths `self.conn` is cleared to
`None`. -/
theorem exit_release_protocol (pingEnabled : Bool) (maxsize : Nat)
    (q : List Nat) (c : Nat) (txn excPresent : Bool) (b : ExitBehavior) :
    (MySQLConn_exit pingEnabled maxsize q (some c) txn excPresent
      b).2.rollbackTried = excPresent ∧
    (MySQLConn_exit pingEnabled maxsize q (some c) txn excPresent b).1 =
      .ok false ∧
    (pingEnabled = true → b.pingOk = false →
      (MySQLConn_exit pingEnabled maxsize q (some c) txn excPresent
        b).2.enqueued = false ∧
      (MySQLConn_exit pingEnabled maxsize q (some c) txn excPresent
        b).2.closedConn = true) ∧
    ((pingEnabled = false ∨ b.pingOk = true) →
      (0 < maxsize ∧ maxsize ≤ q.length) ∨ b.putRaises = true →
      (MySQLConn_exit pingEnabled maxsize q (some c) txn excPresent
        b).2.enqueued = false ∧
      (MySQLConn_exit pingEnabled maxsize q (some c) txn excPresent
        b).2.closedConn = true) ∧
    ((pingEnabled = false ∨ b.pingOk = true) →
      ¬(0 < maxsize ∧ maxsize ≤ q.length) → b.putRaises = false →
      (MySQLConn_exit pingEnabled maxsize q (some c) txn excPresent
        b).2.enqueued = true ∧
      (MySQLConn_exit pingEnabled maxsize q (some c) txn excPresent
        b).2.queueAfter = q ++ [c]) ∧
    (MySQLConn_exit pingEnabled maxsize q (some c) txn excPresent
      b).2.connAfter = none := by
  have hshape := exit_shape pingEnabled maxsize q c txn excPresent b
  have hiff := exit_enqueued_iff pingEnabled maxsize q c txn excPresent b
  refine ⟨exit_rollbackTried pingEnabled maxsize q c txn excPresent b,
    exit_fst pingEnabled maxsize q (some c) txn excPresent b, ?_, ?_, ?_, ?_⟩
  · intro hpe hpo
    subst hpe
    have h := exit_ping_dead maxsize q c txn excPresent b hpo
    exact ⟨h.1, h.2.1⟩
  · intro hping hfail
    rcases hshape with ⟨henq, _, _⟩ | ⟨henq, hcl, _⟩
    · rcases hiff.mp henq with ⟨_, hnf, hnp⟩
      rcases hfail with hfull | hpr
      · exact absurd hfull hnf
      · rw [hpr] at hnp; cases hnp
    · exact ⟨henq, hcl⟩
  · intro hping hnf hnp
    have henq : (MySQLConn_exit pingEnabled maxsize q (some c) txn excPresent
        b).2.enqueued = true := hiff.mpr ⟨hping, hnf, hnp⟩
    exact ⟨henq,
      exit_queueAfter_of_enqueued pingEnabled maxsize q c txn excPresent b
        henq⟩
  · rcases exit_connAfter pingEnabled maxsize q (some c) txn excPresent b with
      h | h
    · exact h
    · cases h

/-- C4 (witness). -/
theorem exit_release_protocol_witness :
    (MySQLConn_exit true 5 [] (some 0) false true xbAllOk).2.enqueued = true ∧
    (MySQLConn_exit true 5 [] (some 0) false true
      xbAllOk).2.queueAfter = [0] := by
  have h := (exit_release_protocol true 5 [] 0 false true
    xbAllOk).2.2.2.2.1 (by decide) (by decide) (by decide)
  exact ⟨h.1, h.2⟩

/-- C5: starting from the empty queue `_get_pool` creates, no sequence of
acquire/release operations ever makes the idle queue hold more than the
configured capacity; and `put_nowait` on a full queue fails with `Full`,
which is the only way release adds to the queue. -/
theorem idle_queue_never_exceeds_capacity (pingEnabled : Bool)
    (maxsize : Nat) (ops : List SysOp) (q : List Nat) (c : Nat)
    (putRaises : Bool) (hpos : 0 < maxsize) :
    (runSys pingEnabled maxsize ops).queue.length ≤ maxsize ∧
    (maxsize ≤ q.length →
      pool_put_nowait maxsize q c putRaises = .error .Full) := by
  constructor
  · exact foldl_sysStep_queue_len pingEnabled maxsize ops Sys.start hpos
      (by simp [Sys.start])
  · intro hfull
    simp [pool_put_nowait, hpos, hfull]

/-- C5 (witness): six acquire/release rounds against capacity 5 leave at
most 5 idle connections. -/
theorem idle_queue_never_exceeds_capacity_witness :
    (runSys true 5
      [.acquire ebAllOk, .acquire ebAllOk, .acquire ebAllOk,
       .acquire ebAllOk, .acquire ebAllOk, .acquire ebAllOk,
       .release 0 false false xbAllOk, .release 1 false false xbAllOk,
       .release 2 false false xbAllOk, .release 3 false false xbAllOk,
       .release 4 false false xbAllOk,
       .release 5 false false xbAllOk]).queue.length ≤ 5 :=
  (idle_queue_never_exceeds_capacity true 5
    [.acquire ebAllOk, .acquire ebAllOk, .acquire ebAllOk,
     .acquire ebAllOk, .acquire ebAllOk, .acquire ebAllOk,
     .release 0 false false xbAllOk, .release 1 false false xbAllOk,
     .release 2 false false xbAllOk, .release 3 false false xbAllOk,
     .release 4 false false xbAllOk,
     .release 5 false false xbAllOk] [] 0 false (by decide)).1

lemma get_pool_second_call (poolSize : Nat) (host user db : String)
    (r : Registry) :
    _get_pool poolSize host user db (_get_pool poolSize host user db r).2 =
      ((_get_pool poolSize host user db r).1,
        (_get_pool poolSize host user db r).2) := by
  cases hl : lookupKey r.pools (host, user, db) with
  | some q => simp [_get_pool, _make_key, hl]
  | none => simp [_get_pool, _make_key, hl, lookupKey]

/-- C6: (i) across every operation sequence, the idle queue never holds a
discarded connection, so a discarded connection is never again returned by
a dequeue; (ii) with capacity 1 and two sequential leases, if the first
lease's connection was re-enqueued by release, the second acquire returns
that same connection and does not create a new one. -/
theorem discarded_never_reused_and_single_slot_reuse :
    (∀ (pingEnabled : Bool) (maxsize : Nat) (ops : List SysOp) (c : Nat),
      c ∈ (runSys pingEnabled maxsize ops).queue →
      c ∉ (runSys pingEnabled maxsize ops).discarded) ∧
    (∀ (pingEnabled : Bool) (q0 : List Nat) (n : Nat) (b1 : EnterBehavior)
       (xb : ExitBehavior) (txn excPresent : Bool) (b2 : EnterBehavior)
       (c : Nat),
      (MySQLConn_enter pingEnabled q0 n b1).1 = .ok c →
      (MySQLConn_exit pingEnabled 1
        (MySQLConn_enter pingEnabled q0 n b1).2.queueAfter (some c) txn
        excPresent xb).2.enqueued = true →
      b2.pingOk = true →
      (MySQLConn_enter pingEnabled
        (MySQLConn_exit pingEnabled 1
          (MySQLConn_enter pingEnabled q0 n b1).2.queueAfter (some c) txn
          excPresent xb).2.queueAfter
        (MySQLConn_enter pingEnabled q0 n b1).2.nextIdAfter b2).1 = .ok c ∧
      (MySQLConn_enter pingEnabled
        (MySQLConn_exit pingEnabled 1
          (MySQLConn_enter pingEnabled q0 n b1).2.queueAfter (some c) txn
          excPresent xb).2.queueAfter
        (MySQLConn_enter pingEnabled q0 n b1).2.nextIdAfter
        b2).2.createdNew = false) := by
  constructor
  · intro pingEnabled maxsize ops c hmem
    have hInv := runSys_inv pingEnabled maxsize ops
    exact hInv.2.1 c (List.mem_append.mpr (Or.inl hmem))
  · intro pingEnabled q0 n b1 xb txn excPresent b2 c he1 hx hb2
    have hnf := ((exit_enqueued_iff pingEnabled 1
      (MySQLConn_enter pingEnabled q0 n b1).2.queueAfter c txn excPresent
      xb).mp hx).2.1
    have hlen : (MySQLConn_enter pingEnabled q0 n b1).2.queueAfter.length
        = 0 := by omega
    have hnil : (MySQLConn_enter pingEnabled q0 n b1).2.queueAfter = [] :=
      List.length_eq_zero.mp hlen
    have hqa := exit_queueAfter_of_enqueued pingEnabled 1
      (MySQLConn_enter pingEnabled q0 n b1).2.queueAfter c txn excPresent xb
      hx
    rw [hqa, hnil]
    simp only [List.nil_append]
    rw [enter_cons_healthy pingEnabled c [] _ b2 (Or.inr hb2)]
    exact ⟨rfl, rfl⟩

/-- C6 (witness): fresh pool of capacity 1; the first lease creates
connection 0, release re-enqueues it, and the second lease gets
connection 0 back without creating a new one. -/
theorem discarded_never_reused_witness :
    (MySQLConn_enter true
      (MySQLConn_exit true 1 (MySQLConn_enter true [] 0 ebAllOk).2.queueAfter
        (some 0) false false xbAllOk).2.queueAfter
      (MySQLConn_enter true [] 0 ebAllOk).2.nextIdAfter ebAllOk).1 = .ok 0 ∧
    (MySQLConn_enter true
      (MySQLConn_exit true 1 (MySQLConn_enter true [] 0 ebAllOk).2.queueAfter
        (some 0) false false xbAllOk).2.queueAfter
      (MySQLConn_enter true [] 0 ebAllOk).2.nextIdAfter
      ebAllOk).2.createdNew = false :=
  discarded_never_reused_and_single_slot_reuse.2 true [] 0 ebAllOk xbAllOk
    false false ebAllOk 0 rfl (by decide) rfl

/-- C7: `_get_pool` maps the key to the queue it returns; a second call
with the same key returns the same queue and leaves the registry
untouched; a first call for a key creates the queue with capacity
`_POOL_SIZE`; and every existing entry survives any call unchanged — no
operation removes or replaces a registry entry. -/
theorem get_pool_exactly_once_persistent (poolSize : Nat)
    (host user db : String) (r : Registry) :
    lookupKey (_get_pool poolSize host user db r).2.pools
      (_make_key host user db) = some (_get_pool poolSize host user db r).1 ∧
    _get_pool poolSize host user db (_get_pool poolSize host user db r).2 =
      ((_get_pool poolSize host user db r).1,
        (_get_pool poolSize host user db r).2) ∧
    (lookupKey r.pools (_make_key host user db) = none →
      lookupKey (_get_pool poolSize host user db r).2.caps
        (_get_pool poolSize host user db r).1 = some poolSize) ∧
    (∀ k q0, lookupKey r.pools k = some q0 →
      lookupKey (_get_pool poolSize host user db r).2.pools k = some q0) := by
  refine ⟨?_, get_pool_second_call poolSize host user db r, ?_, ?_⟩
  · cases hl : lookupKey r.pools (host, user, db) with
    | some q => simp [_get_pool, _make_key, hl]
    | none => simp [_get_pool, _make_key, hl, lookupKey]
  · intro hnone
    simp only [_make_key] at hnone
    simp [_get_pool, _make_key, hnone, lookupKey]
  · intro k q0 hk
    cases hl : lookupKey r.pools (host, user, db) with
    | some q => simpa [_get_pool, _make_key, hl] using hk
    | none =>
      have hkey : ¬((host, user, db) = k) := by
        rintro rfl
        rw [hl] at hk
        cases hk
      simpa [_get_pool, _make_key, hl, lookupKey, hkey] using hk

/-- C7 (witness): first call on a fresh registry creates a queue of the
configured capacity. -/
theorem get_pool_exactly_once_persistent_witness :
    lookupKey (_get_pool 5 "h" "u" "d" Registry.start).2.caps
      (_get_pool 5 "h" "u" "d" Registry.start).1 = some 5 :=
  (get_pool_exactly_once_persistent 5 "h" "u" "d"
    Registry.start).2.2.1 rfl

/-- C8: the password is not part of the pool partition key — two guards
built with the same (host, user, database) but different passwords
resolve to the same idle queue; and whatever connection sits at the head
of that shared queue is dequeued and returned to the acquiring guard
(healthy probe), so a connection created under one password is reused by
a lease configured with the other. -/
theorem password_not_in_partition_key (poolSize : Nat)
    (host user p1 p2 db : String) (r : Registry) (hne : p1 ≠ p2) :
    (MySQLConn_init poolSize host user p2 db
        (MySQLConn_init poolSize host user p1 db r).2).1.poolId =
      (MySQLConn_init poolSize host user p1 db r).1.poolId ∧
    (∀ (pingEnabled : Bool) (c : Nat) (rest : List Nat) (n : Nat)
       (b2 : EnterBehavior), b2.pingOk = true →
      (MySQLConn_enter pingEnabled (c :: rest) n b2).1 = .ok c) := by
  constructor
  · simp only [MySQLConn_init]
    rw [get_pool_second_call poolSize host user db r]
  · intro pingEnabled c rest n b2 hb2
    rw [enter_cons_healthy pingEnabled c rest n b2 (Or.inr hb2)]

/-- C8 (witness): passwords differ, the pool is the same, and connection
3 sitting in the shared queue is handed to the other guard's lease. -/
theorem password_not_in_partition_key_witness :
    (MySQLConn_init 5 "h" "u" "pw2" "d"
        (MySQLConn_init 5 "h" "u" "pw1" "d" Registry.start).2).1.poolId =
      (MySQLConn_init 5 "h" "u" "pw1" "d" Registry.start).1.poolId ∧
    (MySQLConn_enter true [3] 0 ebAllOk).1 = .ok 3 := by
  have h := password_not_in_partition_key 5 "h" "u" "pw1" "pw2" "d"
    Registry.start (by decide)
  exact ⟨h.1, h.2 true 3 [] 0 ebAllOk rfl⟩

/-- C9: with `_POOL_PING` false no liveness check happens on either path:
acquire returns the dequeued connection without probing (even one whose
probe would fail — a dead connection), and release enqueues the
connection without probing (even a dead one), which can thus be handed to
a caller and recycled into the queue. -/
theorem ping_disabled_no_probe (maxsize : Nat) (q : List Nat) (c : Nat)
    (rest : List Nat) (n : Nat) (txn excPresent : Bool) (b : EnterBehavior)
    (xb : ExitBehavior) (hb : b.pingOk = false) (hxb : xb.pingOk = false)
    (hroom : q.length < maxsize) (hnp : xb.putRaises = false) :
    (MySQLConn_enter false (c :: rest) n b).1 = .ok c ∧
    (MySQLConn_enter false (c :: rest) n b).2.pinged = false ∧
    (MySQLConn_exit false maxsize q (some c) txn excPresent
      xb).2.enqueued = true ∧
    (MySQLConn_exit false maxsize q (some c) txn excPresent
      xb).2.pinged = false ∧
    (MySQLConn_exit false maxsize q (some c) txn excPresent
      xb).2.queueAfter = q ++ [c] := by
  have henq : (MySQLConn_exit false maxsize q (some c) txn excPresent
      xb).2.enqueued = true :=
    (exit_enqueued_iff false maxsize q c txn excPresent xb).mpr
      ⟨Or.inl rfl, by omega, hnp⟩
  refine ⟨?_, ?_, henq, ?_, ?_⟩
  · rw [enter_cons_healthy false c rest n b (Or.inl rfl)]
  · rw [enter_cons_healthy false c rest n b (Or.inl rfl)]
  · exact exit_pinged false maxsize q c txn excPresent xb
  · exact exit_queueAfter_of_enqueued false maxsize q c txn excPresent xb
      henq

/-- C9 (witness): a dead connection (both probes would fail) is handed
out as-is and recycled as-is when probing is disabled. -/
theorem ping_disabled_no_probe_witness :
    (MySQLConn_enter false [0] 7 ⟨false, false, true⟩).1 = .ok 0 ∧
    (MySQLConn_exit false 5 [] (some 0) true false
      ⟨false, false, false, false⟩).2.enqueued = true := by
  have h := ping_disabled_no_probe 5 [] 0 [] 7 true false
    ⟨false, false, true⟩ ⟨false, false, false, false⟩ rfl rfl
    (by decide) rfl
  exact ⟨h.1, h.2.2.1⟩

/-- C10: `__exit__` on a guard whose connection reference is `None`
(acquire never succeeded, or a previous `__exit__` already cleared it) is
a harmless no-op: no rollback, probe, enqueue or close is attempted,
nothing is raised, the falsy `None` is returned, and the queue is left
exactly as it was. -/
theorem exit_unacquired_guard_noop (pingEnabled : Bool) (maxsize : Nat)
    (q : List Nat) (txn excPresent : Bool) (b : ExitBehavior) :
    MySQLConn_exit pingEnabled maxsize q none txn excPresent b =
      (.ok false, ⟨false, false, false, false, q, none, txn⟩) := rfl
